import Mathlib

/-!
Shallow embedding of `src/parakeet_server.py` (class `ParakeetServer`).

The server reads newline-delimited JSON requests from stdin and writes one
JSON line per request to stdout.  It keeps a dict `self.models` caching
loaded ASR models keyed by model name.  The external NeMo ASR capability
(`ASRModel.from_pretrained`, `model.transcribe`) is modelled as an abstract
`Capability` parameter; everything the server itself does is translated
directly from the Python source.

Observable behaviour is recorded as a trace of events `Ev`: lines written to
stdout, invocations of the load primitive, and invocations of the
transcription primitive (with the handle state passed to it).
-/

/-- JSON scalar values that may appear in request fields. -/
inductive JVal where
  | jstr (s : String)
  | jnum (n : Int)
  | jbool (b : Bool)
  | jnull
deriving DecidableEq, Repr

/-- Python truthiness of a JSON value ( `""`, `0`, `False`, `None` are falsy). -/
def jTruthy : JVal → Bool
  | .jstr s => decide (s ≠ "")
  | .jnum n => decide (n ≠ 0)
  | .jbool b => b
  | .jnull => false

/-- String view of a field value as it flows on into `transcribe`; in every
request exercised by the spec the fields are strings. -/
def jStr : JVal → String
  | .jstr s => s
  | .jnum n => toString n
  | .jbool b => toString b
  | .jnull => "None"

/-- Opaque handle to a loaded ASR model.  `hid` is the identity of the
underlying instance; `decoding` is the handle-local mutable decoding-strategy
state that `change_decoding_strategy` overwrites. -/
structure Handle where
  hid : Nat
  decoding : Option String
deriving DecidableEq, Repr

/-- Raw result of the transcription primitive: `text` and `confidence` model
the duck-typed optional attributes probed with `hasattr`; `asString` models
the `str(result)` fallback. -/
structure RawResult where
  text : Option String
  confidence : Option ℚ
  asString : String
deriving DecidableEq, Repr

/-- The external ASR capability: `load` is `ASRModel.from_pretrained`,
`transcribePrim` is `model.transcribe([path])[0]`.  Either may fail with an
exception message. -/
structure Capability where
  load : String → Except String Handle
  transcribePrim : Handle → String → Except String RawResult

/-- Normalized successful transcription value built by `transcribe`. -/
structure TResult where
  text : String
  confidence : ℚ
deriving DecidableEq, Repr

/-- One JSON line written to stdout. -/
inductive OutLine where
  | status (s : String)
  | loading (model : String)
  | success (text : String) (confidence : ℚ)
  | error (msg : String)
deriving DecidableEq, Repr

/-- Observable events of a run: stdout lines, invocations of the load
primitive, invocations of the transcription primitive. -/
inductive Ev where
  | out (l : OutLine)
  | loadCall (name : String)
  | transCall (h : Handle) (path : String)
deriving DecidableEq, Repr

/-- The `self.models` dict: an association list keyed by model name. -/
abbrev Models := List (String × Handle)

/-- Dict lookup, `self.models[name]` / `name in self.models`. -/
def lookupModel : Models → String → Option Handle
  | [], _ => none
  | (k, v) :: rest, n => if k = n then some v else lookupModel rest n

/-- Dict update, `self.models[name] = h` (replaces in place, keeps position). -/
def setModel : Models → String → Handle → Models
  | [], n, h => [(n, h)]
  | (k, v) :: rest, n, h => if k = n then (n, h) :: rest else (k, v) :: setModel rest n h

/-- Occurrence of `sub` at the head of a character list. -/
def subAt : List Char → List Char → Bool
  | [], _ => true
  | _ :: _, [] => false
  | a :: as, b :: bs => a == b && subAt as bs

/-- Occurrence of `sub` anywhere in a character list. -/
def hasSub (sub : List Char) : List Char → Bool
  | [] => sub.isEmpty
  | c :: rest => subAt sub (c :: rest) || hasSub sub rest

/-- Python substring test `sub in s`. -/
def strContains (s sub : String) : Bool := hasSub sub.data s.data

/-- Condition of the language-adjustment branch:
`if 'v3' in model_name and language != 'en':`. -/
def needsLang (model_name language : String) : Bool :=
  strContains model_name "v3" && language != "en"

/-- Effect of `asr_model.change_decoding_strategy(None)` on the handle when
the language-adjustment branch is taken; otherwise the handle is untouched. -/
def langAdjust (model_name language : String) (h : Handle) : Handle :=
  if needsLang model_name language then { h with decoding := none } else h

/-- Method `ParakeetServer.load_model`: return the cached handle for
`model_name`; on a miss, print the `loading` status, invoke the load
primitive, store the handle and return it.  A load failure propagates as an
exception and leaves the cache unchanged. -/
def load_model (cap : Capability) (models : Models) (model_name : String) :
    Models × List Ev × Except String Handle :=
  match lookupModel models model_name with
  | some h => (models, [], .ok h)
  | none =>
    match cap.load model_name with
    | .ok h =>
        (setModel models model_name h,
         [.out (.loading model_name), .loadCall model_name], .ok h)
    | .error e => (models, [.out (.loading model_name), .loadCall model_name], .error e)

/-- Method `ParakeetServer.transcribe`: load (or fetch) the model, apply the
language adjustment when needed (mutating the cached handle in place), call
the transcription primitive, and normalize the result; every failure is
re-raised as `Transcription failed: <e>`. -/
def transcribe (cap : Capability) (models : Models)
    (audio_path model_name language : String) :
    Models × List Ev × Except String TResult :=
  match load_model cap models model_name with
  | (m1, evs, .error e) => (m1, evs, .error ("Transcription failed: " ++ e))
  | (m1, evs, .ok h) =>
    let h2 := langAdjust model_name language h
    let m2 := if needsLang model_name language then setModel m1 model_name h2 else m1
    match cap.transcribePrim h2 audio_path with
    | .error e =>
        (m2, evs ++ [.transCall h2 audio_path], .error ("Transcription failed: " ++ e))
    | .ok raw =>
        (m2, evs ++ [.transCall h2 audio_path],
         .ok { text := raw.text.getD raw.asString,
               confidence := raw.confidence.getD (95 / 100 : ℚ) })

/-- Parsed request dict; `none` models an absent key. -/
structure Request where
  audio_path : Option JVal
  model_name : Option JVal
  language : Option JVal
deriving DecidableEq, Repr

/-- One input line as seen after `json.loads`: either the parse raised
`JSONDecodeError` with message `msg`, or it produced a request dict. -/
inductive InLine where
  | malformed (msg : String)
  | parsed (req : Request)
deriving DecidableEq, Repr

/-- Truthiness of `request.get(key)`: absent keys give `None`, hence falsy. -/
def truthyField : Option JVal → Bool
  | none => false
  | some v => jTruthy v

/-- Value of `request.get('audio_path')` viewed as a string. -/
def reqPath (req : Request) : String := jStr (req.audio_path.getD .jnull)

/-- Value of `request.get('model_name')` viewed as a string. -/
def reqModel (req : Request) : String := jStr (req.model_name.getD .jnull)

/-- Value of `request.get('language', 'en')` viewed as a string. -/
def reqLang (req : Request) : String :=
  match req.language with
  | some v => jStr v
  | none => "en"

/-- One iteration of the body of the `while True` loop in
`ParakeetServer.run`, for one input line. -/
def step (cap : Capability) (models : Models) : InLine → Models × List Ev
  | .malformed m => (models, [.out (.error ("Invalid JSON: " ++ m))])
  | .parsed req =>
    if truthyField req.audio_path && truthyField req.model_name then
      match transcribe cap models (reqPath req) (reqModel req) (reqLang req) with
      | (m2, evs, .ok r) => (m2, evs ++ [.out (.success r.text r.confidence)])
      | (m2, evs, .error e) => (m2, evs ++ [.out (.error e)])
    else (models, [.out (.error "Missing audio_path or model_name")])

/-- Events of the request loop over a whole input stream; the end of the
list is end-of-input (`readline` returning the empty string). -/
def runLoop (cap : Capability) (models : Models) : List InLine → List Ev
  | [] => []
  | l :: rest => (step cap models l).2 ++ runLoop cap (step cap models l).1 rest

/-- Cache state after the request loop has consumed the input stream. -/
def runState (cap : Capability) (models : Models) : List InLine → Models
  | [] => models
  | l :: rest => runState cap (step cap models l).1 rest

/-- Method `ParakeetServer.run`: the fivefold `ready` broadcast followed by
the request loop. -/
def run (cap : Capability) (models : Models) (input : List InLine) : List Ev :=
  List.replicate 5 (Ev.out (.status "ready")) ++ runLoop cap models input

/-- Whole process: `ParakeetServer()` (which prints `starting` and creates
the empty cache) followed by `server.run()`. -/
def serverMain (cap : Capability) (input : List InLine) : List Ev :=
  Ev.out (.status "starting") :: run cap [] input

/-- Response lines (success or error payloads) among a list of events, in
order; status and loading lines are not responses. -/
def responsesOf (evs : List Ev) : List OutLine :=
  evs.filterMap fun e =>
    match e with
    | .out (.success t c) => some (.success t c)
    | .out (.error m) => some (.error m)
    | _ => none

/-- The single response line the dispatcher produces for one input line. -/
def stepResponse (cap : Capability) (models : Models) : InLine → OutLine
  | .malformed m => .error ("Invalid JSON: " ++ m)
  | .parsed req =>
    if truthyField req.audio_path && truthyField req.model_name then
      match (transcribe cap models (reqPath req) (reqModel req) (reqLang req)).2.2 with
      | .ok r => .success r.text r.confidence
      | .error e => .error e
    else .error "Missing audio_path or model_name"

/-- Responses of the loop, one per input line, in input order. -/
def runResponses (cap : Capability) (models : Models) : List InLine → List OutLine
  | [] => []
  | l :: rest => stepResponse cap models l :: runResponses cap (step cap models l).1 rest

/-- Number of invocations of the load primitive for `name` in a trace. -/
def countLoadCalls (name : String) (evs : List Ev) : Nat :=
  (evs.filter fun e => e = Ev.loadCall name).length

/-- Number of `loading` status lines for `name` in a trace. -/
def countLoadingLines (name : String) (evs : List Ev) : Nat :=
  (evs.filter fun e => e = Ev.out (.loading name)).length

/-- Number of `status` lines with text `s` in a trace. -/
def countStatusLines (s : String) (evs : List Ev) : Nat :=
  (evs.filter fun e => e = Ev.out (.status s)).length

/-- Identity of the cached instance for `name`, when present. -/
def cachedId (models : Models) (name : String) : Option Nat :=
  (lookupModel models name).map Handle.hid

/-- Demo capability: load always succeeds with a fixed handle; the
transcription primitive fails exactly on `bad.wav`. -/
def capDemo : Capability :=
  { load := fun _ => .ok { hid := 0, decoding := some "default" }
  , transcribePrim := fun _ p =>
      if p = "bad.wav" then .error "boom"
      else .ok { text := some "hello", confidence := some (9 / 10 : ℚ), asString := "hello" } }

/-- Capability whose load primitive always fails. -/
def capFail : Capability :=
  { load := fun _ => .error "boom", transcribePrim := fun _ _ => .error "nope" }

/-- Capability whose transcription result carries no confidence value. -/
def capNoConf : Capability :=
  { load := fun _ => .ok { hid := 0, decoding := some "default" }
  , transcribePrim := fun _ _ =>
      .ok { text := some "hi", confidence := none, asString := "hi" } }

/-- Well-formed request line with string `audio_path` and `model_name` and no
`language` field. -/
def mkReq (ap mn : String) : InLine :=
  .parsed { audio_path := some (.jstr ap), model_name := some (.jstr mn), language := none }

lemma lookupModel_setModel_self (models : Models) (n : String) (h : Handle) :
    lookupModel (setModel models n h) n = some h := by
  induction models with
  | nil => simp [setModel, lookupModel]
  | cons kv rest ih =>
      obtain ⟨k, v⟩ := kv
      by_cases hk : k = n <;> simp [setModel, lookupModel, hk, ih]

lemma lookupModel_setModel_other (models : Models) (n m : String) (h : Handle)
    (hnm : n ≠ m) :
    lookupModel (setModel models n h) m = lookupModel models m := by
  induction models with
  | nil => simp [setModel, lookupModel, hnm]
  | cons kv rest ih =>
      obtain ⟨k, v⟩ := kv
      by_cases hk : k = n
      · subst hk
        simp [setModel, lookupModel, hnm]
      · simp [setModel, lookupModel, hk, ih]

lemma langAdjust_hid (mn lg : String) (h : Handle) :
    (langAdjust mn lg h).hid = h.hid := by
  unfold langAdjust
  split <;> rfl

lemma load_model_hit (cap : Capability) (models : Models) (mn : String) (h : Handle)
    (hc : lookupModel models mn = some h) :
    load_model cap models mn = (models, [], .ok h) := by
  simp [load_model, hc]

lemma load_model_miss_ok (cap : Capability) (models : Models) (mn : String) (h : Handle)
    (hc : lookupModel models mn = none) (hl : cap.load mn = .ok h) :
    load_model cap models mn
      = (setModel models mn h, [.out (.loading mn), .loadCall mn], .ok h) := by
  simp [load_model, hc, hl]

lemma load_model_miss_err (cap : Capability) (models : Models) (mn e : String)
    (hc : lookupModel models mn = none) (hl : cap.load mn = .error e) :
    load_model cap models mn
      = (models, [.out (.loading mn), .loadCall mn], .error e) := by
  simp [load_model, hc, hl]

lemma transcribe_of_load_err (cap : Capability) (models : Models)
    (ap mn lg e : String) (m1 : Models) (evs : List Ev)
    (hl : load_model cap models mn = (m1, evs, .error e)) :
    transcribe cap models ap mn lg = (m1, evs, .error ("Transcription failed: " ++ e)) := by
  unfold transcribe
  rw [hl]

lemma transcribe_of_prim_err (cap : Capability) (models : Models)
    (ap mn lg e : String) (m1 : Models) (evs : List Ev) (h : Handle)
    (hl : load_model cap models mn = (m1, evs, .ok h))
    (hp : cap.transcribePrim (langAdjust mn lg h) ap = .error e) :
    transcribe cap models ap mn lg
      = ((if needsLang mn lg then setModel m1 mn (langAdjust mn lg h) else m1),
         evs ++ [.transCall (langAdjust mn lg h) ap],
         .error ("Transcription failed: " ++ e)) := by
  unfold transcribe
  rw [hl]
  simp [hp]

lemma transcribe_of_prim_ok (cap : Capability) (models : Models)
    (ap mn lg : String) (m1 : Models) (evs : List Ev) (h : Handle) (raw : RawResult)
    (hl : load_model cap models mn = (m1, evs, .ok h))
    (hp : cap.transcribePrim (langAdjust mn lg h) ap = .ok raw) :
    transcribe cap models ap mn lg
      = ((if needsLang mn lg then setModel m1 mn (langAdjust mn lg h) else m1),
         evs ++ [.transCall (langAdjust mn lg h) ap],
         .ok { text := raw.text.getD raw.asString,
               confidence := raw.confidence.getD (95 / 100 : ℚ) }) := by
  unfold transcribe
  rw [hl]
  simp [hp]

lemma responsesOf_append (a b : List Ev) :
    responsesOf (a ++ b) = responsesOf a ++ responsesOf b := by
  simp [responsesOf]

lemma responsesOf_load_model (cap : Capability) (models : Models) (mn : String) :
    responsesOf (load_model cap models mn).2.1 = [] := by
  rcases hc : lookupModel models mn with _ | h
  · rcases hl : cap.load mn with e | h
    · rw [load_model_miss_err cap models mn e hc hl]
      simp [responsesOf]
    · rw [load_model_miss_ok cap models mn h hc hl]
      simp [responsesOf]
  · rw [load_model_hit cap models mn h hc]
    simp [responsesOf]

lemma responsesOf_transcribe (cap : Capability) (models : Models) (ap mn lg : String) :
    responsesOf (transcribe cap models ap mn lg).2.1 = [] := by
  rcases hl : load_model cap models mn with ⟨m1, evs, res⟩
  have hevs : responsesOf evs = [] := by
    have := responsesOf_load_model cap models mn
    rw [hl] at this
    exact this
  cases res with
  | error e =>
      rw [transcribe_of_load_err cap models ap mn lg e m1 evs hl]
      exact hevs
  | ok h =>
      rcases hp : cap.transcribePrim (langAdjust mn lg h) ap with e | raw
      · rw [transcribe_of_prim_err cap models ap mn lg e m1 evs h hl hp]
        show responsesOf (evs ++ [Ev.transCall (langAdjust mn lg h) ap]) = []
        rw [responsesOf_append, hevs]
        simp [responsesOf]
      · rw [transcribe_of_prim_ok cap models ap mn lg m1 evs h raw hl hp]
        show responsesOf (evs ++ [Ev.transCall (langAdjust mn lg h) ap]) = []
        rw [responsesOf_append, hevs]
        simp [responsesOf]

lemma responsesOf_step (cap : Capability) (models : Models) (l : InLine) :
    responsesOf (step cap models l).2 = [stepResponse cap models l] := by
  cases l with
  | malformed m => simp [step, stepResponse, responsesOf]
  | parsed req =>
      cases hcond : (truthyField req.audio_path && truthyField req.model_name) with
      | false => simp [step, stepResponse, hcond, responsesOf]
      | true =>
          rcases ht : transcribe cap models (reqPath req) (reqModel req) (reqLang req)
            with ⟨m2, evs, res⟩
          have hevs : responsesOf evs = [] := by
            have := responsesOf_transcribe cap models (reqPath req) (reqModel req) (reqLang req)
            rw [ht] at this
            exact this
          cases res with
          | error e =>
              have hstep : (step cap models (.parsed req)).2 = evs ++ [.out (.error e)] := by
                simp [step, hcond, ht]
              have hresp : stepResponse cap models (.parsed req) = .error e := by
                simp [stepResponse, hcond, ht]
              rw [hstep, hresp, responsesOf_append, hevs]
              simp [responsesOf]
          | ok r =>
              have hstep : (step cap models (.parsed req)).2
                  = evs ++ [.out (.success r.text r.confidence)] := by
                simp [step, hcond, ht]
              have hresp : stepResponse cap models (.parsed req)
                  = .success r.text r.confidence := by
                simp [stepResponse, hcond, ht]
              rw [hstep, hresp, responsesOf_append, hevs]
              simp [responsesOf]

lemma responsesOf_runLoop (cap : Capability) (models : Models) (input : List InLine) :
    responsesOf (runLoop cap models input) = runResponses cap models input := by
  induction input generalizing models with
  | nil => simp [runLoop, runResponses, responsesOf]
  | cons l rest ih =>
      simp [runLoop, runResponses, responsesOf_append, responsesOf_step, ih]

lemma runResponses_length (cap : Capability) (models : Models) (input : List InLine) :
    (runResponses cap models input).length = input.length := by
  induction input generalizing models with
  | nil => simp [runResponses]
  | cons l rest ih => simp [runResponses, ih]

/-- Claim C1: for every input stream, the dispatcher loop emits exactly one
response line per request line, in request order: the response lines of the
loop trace are precisely `runResponses`, one per input line, in input order,
and their number equals the number of input lines. -/
theorem one_response_per_request_line (cap : Capability) (models : Models)
    (input : List InLine) :
    responsesOf (runLoop cap models input) = runResponses cap models input ∧
    (responsesOf (runLoop cap models input)).length = input.length := by
  refine ⟨responsesOf_runLoop cap models input, ?_⟩
  rw [responsesOf_runLoop cap models input]
  exact runResponses_length cap models input

/-- Claim C4: a line that is not valid JSON produces exactly the response
`{"error": "Invalid JSON: <message>"}`, the cache is untouched, and the loop
goes on to serve the remaining lines from the same state. -/
theorem invalid_json_isolated (cap : Capability) (models : Models) (m : String)
    (rest : List InLine) :
    runLoop cap models (.malformed m :: rest)
      = Ev.out (.error ("Invalid JSON: " ++ m)) :: runLoop cap models rest := by
  simp [runLoop, step]

/-- Claim C5: a parsed request with `audio_path` or `model_name` absent
produces exactly the response `{"error": "Missing audio_path or model_name"}`,
with no load attempt and no cache change, and the loop continues. -/
theorem missing_field_rejected_without_load (cap : Capability) (models : Models)
    (req : Request) (rest : List InLine)
    (h : req.audio_path = none ∨ req.model_name = none) :
    step cap models (.parsed req)
      = (models, [.out (.error "Missing audio_path or model_name")]) ∧
    runLoop cap models (.parsed req :: rest)
      = Ev.out (.error "Missing audio_path or model_name") :: runLoop cap models rest := by
  have hcond : (truthyField req.audio_path && truthyField req.model_name) = false := by
    rcases h with h | h <;> simp [h, truthyField]
  constructor
  · simp [step, hcond]
  · simp [runLoop, step, hcond]

/-- Witness for C5 at a request lacking `audio_path`. -/
theorem missing_field_rejected_without_load_witness :
    step capDemo [] (.parsed { audio_path := none
                             , model_name := some (.jstr "m1"), language := none })
      = ([], [.out (.error "Missing audio_path or model_name")]) ∧
    runLoop capDemo [] [.parsed { audio_path := none
                                , model_name := some (.jstr "m1"), language := none }]
      = [Ev.out (.error "Missing audio_path or model_name")] :=
  missing_field_rejected_without_load capDemo []
    { audio_path := none, model_name := some (.jstr "m1"), language := none } []
    (Or.inl rfl)

/-- Claim C10: a parsed request whose `audio_path` or `model_name` is present
but falsy (empty string, 0, false, or null) is treated exactly like a missing
field: the same error response, no load attempt, no cache change. -/
theorem falsy_field_treated_as_missing (cap : Capability) (models : Models)
    (req : Request) (rest : List InLine) (v : JVal)
    (h : (req.audio_path = some v ∨ req.model_name = some v) ∧ jTruthy v = false) :
    step cap models (.parsed req)
      = (models, [.out (.error "Missing audio_path or model_name")]) ∧
    runLoop cap models (.parsed req :: rest)
      = Ev.out (.error "Missing audio_path or model_name") :: runLoop cap models rest := by
  obtain ⟨hf, hv⟩ := h
  have hcond : (truthyField req.audio_path && truthyField req.model_name) = false := by
    rcases hf with hf | hf <;> simp [hf, truthyField, hv]
  constructor
  · simp [step, hcond]
  · simp [runLoop, step, hcond]

/-- Witness for C10 at a request whose `audio_path` is the empty string. -/
theorem falsy_field_treated_as_missing_witness :
    step capDemo [] (.parsed { audio_path := some (.jstr "")
                             , model_name := some (.jstr "m1"), language := none })
      = ([], [.out (.error "Missing audio_path or model_name")]) ∧
    runLoop capDemo [] [.parsed { audio_path := some (.jstr "")
                                , model_name := some (.jstr "m1"), language := none }]
      = [Ev.out (.error "Missing audio_path or model_name")] :=
  falsy_field_treated_as_missing capDemo []
    { audio_path := some (.jstr ""), model_name := some (.jstr "m1"), language := none } []
    (.jstr "") ⟨Or.inl rfl, by decide⟩

lemma countStatusLines_append (s : String) (a b : List Ev) :
    countStatusLines s (a ++ b) = countStatusLines s a + countStatusLines s b := by
  simp [countStatusLines]

lemma countStatusLines_load_model (cap : Capability) (models : Models) (mn s : String) :
    countStatusLines s (load_model cap models mn).2.1 = 0 := by
  rcases hc : lookupModel models mn with _ | h
  · rcases hl : cap.load mn with e | h
    · rw [load_model_miss_err cap models mn e hc hl]
      simp [countStatusLines]
    · rw [load_model_miss_ok cap models mn h hc hl]
      simp [countStatusLines]
  · rw [load_model_hit cap models mn h hc]
    simp [countStatusLines]

lemma countStatusLines_transcribe (cap : Capability) (models : Models)
    (ap mn lg s : String) :
    countStatusLines s (transcribe cap models ap mn lg).2.1 = 0 := by
  rcases hl : load_model cap models mn with ⟨m1, evs, res⟩
  have hevs : countStatusLines s evs = 0 := by
    have := countStatusLines_load_model cap models mn s
    rw [hl] at this
    exact this
  cases res with
  | error e =>
      rw [transcribe_of_load_err cap models ap mn lg e m1 evs hl]
      exact hevs
  | ok h =>
      rcases hp : cap.transcribePrim (langAdjust mn lg h) ap with e | raw
      · rw [transcribe_of_prim_err cap models ap mn lg e m1 evs h hl hp]
        show countStatusLines s (evs ++ [Ev.transCall (langAdjust mn lg h) ap]) = 0
        rw [countStatusLines_append, hevs]
        simp [countStatusLines]
      · rw [transcribe_of_prim_ok cap models ap mn lg m1 evs h raw hl hp]
        show countStatusLines s (evs ++ [Ev.transCall (langAdjust mn lg h) ap]) = 0
        rw [countStatusLines_append, hevs]
        simp [countStatusLines]

lemma countStatusLines_step (cap : Capability) (models : Models) (l : InLine) (s : String) :
    countStatusLines s (step cap models l).2 = 0 := by
  cases l with
  | malformed m => simp [step, countStatusLines]
  | parsed req =>
      cases hcond : (truthyField req.audio_path && truthyField req.model_name) with
      | false => simp [step, hcond, countStatusLines]
      | true =>
          rcases ht : transcribe cap models (reqPath req) (reqModel req) (reqLang req)
            with ⟨m2, evs, res⟩
          have hevs : countStatusLines s evs = 0 := by
            have := countStatusLines_transcribe cap models (reqPath req) (reqModel req)
              (reqLang req) s
            rw [ht] at this
            exact this
          cases res with
          | error e =>
              have hstep : (step cap models (.parsed req)).2 = evs ++ [.out (.error e)] := by
                simp [step, hcond, ht]
              rw [hstep, countStatusLines_append, hevs]
              simp [countStatusLines]
          | ok r =>
              have hstep : (step cap models (.parsed req)).2
                  = evs ++ [.out (.success r.text r.confidence)] := by
                simp [step, hcond, ht]
              rw [hstep, countStatusLines_append, hevs]
              simp [countStatusLines]

lemma countStatusLines_runLoop (cap : Capability) (models : Models)
    (input : List InLine) (s : String) :
    countStatusLines s (runLoop cap models input) = 0 := by
  induction input generalizing models with
  | nil => simp [runLoop, countStatusLines]
  | cons l rest ih =>
      rw [runLoop, countStatusLines_append, countStatusLines_step, ih]

/-- Claim C9: every run prints `{"status": "starting"}` once and then
`{"status": "ready"}` exactly five times, before any request is processed;
in particular the first six output events are exactly those lines, the whole
trace contains no further `starting` or `ready` line, and the `ready`
broadcast precedes the loop regardless of the cache the loop starts from. -/
theorem startup_emits_starting_then_five_ready (cap : Capability) (models : Models)
    (input : List InLine) :
    (serverMain cap input).take 6
      = Ev.out (.status "starting") :: List.replicate 5 (Ev.out (.status "ready")) ∧
    countStatusLines "starting" (serverMain cap input) = 1 ∧
    countStatusLines "ready" (serverMain cap input) = 5 ∧
    (run cap models input).take 5 = List.replicate 5 (Ev.out (.status "ready")) := by
  have htake : ∀ (m : Models),
      (List.replicate 5 (Ev.out (.status "ready")) ++ runLoop cap m input).take 5
        = List.replicate 5 (Ev.out (.status "ready")) := by
    intro m
    have h5 : (List.replicate 5 (Ev.out (OutLine.status "ready"))).length = 5 := by simp
    conv_lhs => rw [← h5]
    exact List.take_left _ _
  refine ⟨?_, ?_, ?_, htake models⟩
  · rw [serverMain, run]
    rw [List.take_cons]
    · rw [htake []]
    · norm_num
  · rw [serverMain, run]
    have : countStatusLines "starting"
        (Ev.out (.status "starting") :: (List.replicate 5 (Ev.out (.status "ready"))
          ++ runLoop cap [] input))
        = countStatusLines "starting" [Ev.out (.status "starting")]
          + (countStatusLines "starting" (List.replicate 5 (Ev.out (.status "ready")))
            + countStatusLines "starting" (runLoop cap [] input)) := by
      rw [← countStatusLines_append, ← countStatusLines_append]
      rfl
    rw [this, countStatusLines_runLoop]
    norm_num [countStatusLines, List.filter_replicate]
    decide
  · rw [serverMain, run]
    have : countStatusLines "ready"
        (Ev.out (.status "starting") :: (List.replicate 5 (Ev.out (.status "ready"))
          ++ runLoop cap [] input))
        = countStatusLines "ready" [Ev.out (.status "starting")]
          + (countStatusLines "ready" (List.replicate 5 (Ev.out (.status "ready")))
            + countStatusLines "ready" (runLoop cap [] input)) := by
      rw [← countStatusLines_append, ← countStatusLines_append]
      rfl
    rw [this, countStatusLines_runLoop]
    norm_num [countStatusLines, List.filter_replicate]
    decide

lemma transcribe_error_has_prefix (cap : Capability) (models : Models)
    (ap mn lg e : String)
    (h : (transcribe cap models ap mn lg).2.2 = .error e) :
    ∃ d, e = "Transcription failed: " ++ d := by
  rcases hl : load_model cap models mn with ⟨m1, evs, res⟩
  cases res with
  | error e0 =>
      rw [transcribe_of_load_err cap models ap mn lg e0 m1 evs hl] at h
      simp at h
      exact ⟨e0, h.symm⟩
  | ok hh =>
      rcases hp : cap.transcribePrim (langAdjust mn lg hh) ap with e0 | raw
      · rw [transcribe_of_prim_err cap models ap mn lg e0 m1 evs hh hl hp] at h
        simp at h
        exact ⟨e0, h.symm⟩
      · rw [transcribe_of_prim_ok cap models ap mn lg m1 evs hh raw hl hp] at h
        simp at h

/-- Claim C3: when the capability invocation faults (during load or during
transcription), the request gets a single error response carrying the
contextual prefix `Transcription failed: `, the loop does not terminate, and
a subsequent valid request is served successfully. -/
theorem invocation_fault_isolated (cap : Capability) (models : Models)
    (ap1 mn1 ap2 mn2 em : String) (r : TResult)
    (hap1 : ap1 ≠ "") (hmn1 : mn1 ≠ "") (hap2 : ap2 ≠ "") (hmn2 : mn2 ≠ "")
    (h1 : (transcribe cap models ap1 mn1 "en").2.2 = .error em)
    (h2 : (transcribe cap (transcribe cap models ap1 mn1 "en").1 ap2 mn2 "en").2.2
        = .ok r) :
    responsesOf (runLoop cap models [mkReq ap1 mn1, mkReq ap2 mn2])
        = [.error em, .success r.text r.confidence] ∧
    ∃ d, em = "Transcription failed: " ++ d := by
  constructor
  · have e1 : stepResponse cap models (mkReq ap1 mn1) = .error em := by
      simp [mkReq, stepResponse, truthyField, jTruthy, hap1, hmn1,
        reqPath, reqModel, reqLang, jStr, h1]
    have estate : (step cap models (mkReq ap1 mn1)).1
        = (transcribe cap models ap1 mn1 "en").1 := by
      rcases ht : transcribe cap models ap1 mn1 "en" with ⟨m2, evs, res⟩
      cases res <;>
        simp [mkReq, step, truthyField, jTruthy, hap1, hmn1,
          reqPath, reqModel, reqLang, jStr, ht]
    have e2 : stepResponse cap (transcribe cap models ap1 mn1 "en").1 (mkReq ap2 mn2)
        = .success r.text r.confidence := by
      simp [mkReq, stepResponse, truthyField, jTruthy, hap2, hmn2,
        reqPath, reqModel, reqLang, jStr, h2]
    rw [responsesOf_runLoop]
    simp [runResponses, e1, estate, e2]
  · exact transcribe_error_has_prefix cap models ap1 mn1 "en" em h1

/-- Witness for C3: `capDemo` faults on `bad.wav` and then serves
`good.wav`. -/
theorem invocation_fault_isolated_witness :
    responsesOf (runLoop capDemo [] [mkReq "bad.wav" "m1", mkReq "good.wav" "m1"])
        = [.error "Transcription failed: boom", .success "hello" ((9 : ℚ) / 10)] ∧
    ∃ d, "Transcription failed: boom" = "Transcription failed: " ++ d :=
  invocation_fault_isolated capDemo [] "bad.wav" "m1" "good.wav" "m1"
    "Transcription failed: boom" { text := "hello", confidence := (9 : ℚ) / 10 }
    (by decide) (by decide) (by decide) (by decide) (by rfl) (by rfl)

/-- Claim C6: the decoding-strategy adjustment is applied to the handle,
before the transcription primitive is invoked, exactly when the model name
contains `v3` and the language is not `en`; the primitive receives the
adjusted handle and the adjustment stays in the cached handle afterwards
(it is not rolled back), so later requests for the same model observe it. -/
theorem language_adjustment_exactly_when_v3_non_en (cap : Capability) (models : Models)
    (ap mn lg : String) (h : Handle)
    (hc : lookupModel models mn = some h) :
    (transcribe cap models ap mn lg).2.1 = [Ev.transCall (langAdjust mn lg h) ap] ∧
    lookupModel (transcribe cap models ap mn lg).1 mn = some (langAdjust mn lg h) ∧
    (needsLang mn lg = true → langAdjust mn lg h = { h with decoding := none }) ∧
    (needsLang mn lg = false → langAdjust mn lg h = h) := by
  have hl : load_model cap models mn = (models, [], .ok h) :=
    load_model_hit cap models mn h hc
  have hmain : (transcribe cap models ap mn lg).2.1
        = [Ev.transCall (langAdjust mn lg h) ap] ∧
      (transcribe cap models ap mn lg).1
        = (if needsLang mn lg then setModel models mn (langAdjust mn lg h) else models) := by
    rcases hp : cap.transcribePrim (langAdjust mn lg h) ap with e | raw
    · rw [transcribe_of_prim_err cap models ap mn lg e models [] h hl hp]
      simp
    · rw [transcribe_of_prim_ok cap models ap mn lg models [] h raw hl hp]
      simp
  refine ⟨hmain.1, ?_, ?_, ?_⟩
  · rw [hmain.2]
    by_cases hn : needsLang mn lg
    · rw [if_pos hn]
      exact lookupModel_setModel_self models mn (langAdjust mn lg h)
    · rw [if_neg hn, hc, langAdjust, if_neg hn]
  · intro hn
    rw [langAdjust, if_pos hn]
  · intro hn
    rw [langAdjust, if_neg (by simp [hn])]

/-- Witness for C6 at a `v3` model name and language `de`. -/
theorem language_adjustment_exactly_when_v3_non_en_witness :
    (transcribe capDemo [("p-v3", { hid := 7, decoding := some "default" })]
        "a.wav" "p-v3" "de").2.1
      = [Ev.transCall (langAdjust "p-v3" "de" { hid := 7, decoding := some "default" })
          "a.wav"] ∧
    lookupModel (transcribe capDemo [("p-v3", { hid := 7, decoding := some "default" })]
        "a.wav" "p-v3" "de").1 "p-v3"
      = some (langAdjust "p-v3" "de" { hid := 7, decoding := some "default" }) ∧
    (needsLang "p-v3" "de" = true →
      langAdjust "p-v3" "de" { hid := 7, decoding := some "default" }
        = { hid := 7, decoding := none }) ∧
    (needsLang "p-v3" "de" = false →
      langAdjust "p-v3" "de" { hid := 7, decoding := some "default" }
        = { hid := 7, decoding := some "default" }) :=
  language_adjustment_exactly_when_v3_non_en capDemo
    [("p-v3", { hid := 7, decoding := some "default" })] "a.wav" "p-v3" "de"
    { hid := 7, decoding := some "default" } (by rfl)

/-- Claim C7: a failing load does not populate the cache: the request is
answered with the wrapped error, the cache is returned unchanged, and a
subsequent request for the same name invokes the load primitive again. -/
theorem failed_load_leaves_cache_empty (cap : Capability) (models : Models)
    (ap mn lg e : String)
    (hmiss : lookupModel models mn = none) (hfail : cap.load mn = .error e) :
    transcribe cap models ap mn lg
      = (models, [Ev.out (.loading mn), Ev.loadCall mn],
         .error ("Transcription failed: " ++ e)) ∧
    countLoadCalls mn
      (transcribe cap (transcribe cap models ap mn lg).1 ap mn lg).2.1 = 1 := by
  have hl : load_model cap models mn
      = (models, [Ev.out (.loading mn), Ev.loadCall mn], .error e) :=
    load_model_miss_err cap models mn e hmiss hfail
  have h1 : transcribe cap models ap mn lg
      = (models, [Ev.out (.loading mn), Ev.loadCall mn],
         .error ("Transcription failed: " ++ e)) :=
    transcribe_of_load_err cap models ap mn lg e models
      [Ev.out (.loading mn), Ev.loadCall mn] hl
  refine ⟨h1, ?_⟩
  have hst : (transcribe cap models ap mn lg).1 = models := by rw [h1]
  rw [hst, h1]
  simp [countLoadCalls]

/-- Witness for C7: `capFail` never loads, so the cache stays empty and the
second attempt calls the load primitive again. -/
theorem failed_load_leaves_cache_empty_witness :
    transcribe capFail [] "a.wav" "m1" "en"
      = ([], [Ev.out (.loading "m1"), Ev.loadCall "m1"],
         .error ("Transcription failed: " ++ "boom")) ∧
    countLoadCalls "m1"
      (transcribe capFail (transcribe capFail [] "a.wav" "m1" "en").1
        "a.wav" "m1" "en").2.1 = 1 :=
  failed_load_leaves_cache_empty capFail [] "a.wav" "m1" "en" "boom" rfl rfl

/-- Claim C8: when the raw transcription result carries no confidence value
the success response carries the fixed default `0.95`; when it carries one,
that value is returned. -/
theorem confidence_normalization (cap : Capability) (models : Models)
    (ap mn lg : String) (h : Handle) (raw : RawResult)
    (hc : lookupModel models mn = some h)
    (hp : cap.transcribePrim (langAdjust mn lg h) ap = .ok raw) :
    (raw.confidence = none →
      (transcribe cap models ap mn lg).2.2
        = .ok { text := raw.text.getD raw.asString, confidence := (95 / 100 : ℚ) }) ∧
    (∀ c, raw.confidence = some c →
      (transcribe cap models ap mn lg).2.2
        = .ok { text := raw.text.getD raw.asString, confidence := c }) := by
  have hl : load_model cap models mn = (models, [], .ok h) :=
    load_model_hit cap models mn h hc
  rw [transcribe_of_prim_ok cap models ap mn lg models [] h raw hl hp]
  constructor
  · intro hn
    simp [hn]
  · intro c hc2
    simp [hc2]

/-- Witness for C8 at a raw result without a confidence value. -/
theorem confidence_normalization_witness :
    ((RawResult.mk (some "hi") none "hi").confidence = none →
      (transcribe capNoConf [("m1", { hid := 0, decoding := some "default" })]
          "a.wav" "m1" "en").2.2
        = .ok { text := "hi", confidence := (95 / 100 : ℚ) }) ∧
    (∀ c, (RawResult.mk (some "hi") none "hi").confidence = some c →
      (transcribe capNoConf [("m1", { hid := 0, decoding := some "default" })]
          "a.wav" "m1" "en").2.2
        = .ok { text := "hi", confidence := c }) :=
  confidence_normalization capNoConf
    [("m1", { hid := 0, decoding := some "default" })] "a.wav" "m1" "en"
    { hid := 0, decoding := some "default" } (RawResult.mk (some "hi") none "hi")
    (by rfl) (by rfl)

lemma countLoadCalls_append (name : String) (a b : List Ev) :
    countLoadCalls name (a ++ b) = countLoadCalls name a + countLoadCalls name b := by
  simp [countLoadCalls]

lemma countLoadingLines_append (name : String) (a b : List Ev) :
    countLoadingLines name (a ++ b)
      = countLoadingLines name a + countLoadingLines name b := by
  simp [countLoadingLines]

lemma cachedId_setModel_self (models : Models) (n : String) (h : Handle) :
    cachedId (setModel models n h) n = some h.hid := by
  simp [cachedId, lookupModel_setModel_self]

lemma cachedId_setModel_other (models : Models) (n m : String) (h : Handle)
    (hnm : n ≠ m) :
    cachedId (setModel models n h) m = cachedId models m := by
  simp [cachedId, lookupModel_setModel_other models n m h hnm]

lemma transcribe_shape_ok (cap : Capability) (models : Models)
    (ap mn lg : String) (m1 : Models) (evs : List Ev) (h : Handle)
    (hl : load_model cap models mn = (m1, evs, .ok h)) :
    (transcribe cap models ap mn lg).1
        = (if needsLang mn lg then setModel m1 mn (langAdjust mn lg h) else m1) ∧
    (transcribe cap models ap mn lg).2.1
        = evs ++ [Ev.transCall (langAdjust mn lg h) ap] := by
  rcases hp : cap.transcribePrim (langAdjust mn lg h) ap with e | raw
  · rw [transcribe_of_prim_err cap models ap mn lg e m1 evs h hl hp]
    exact ⟨rfl, rfl⟩
  · rw [transcribe_of_prim_ok cap models ap mn lg m1 evs h raw hl hp]
    exact ⟨rfl, rfl⟩

lemma transcribe_other_name (cap : Capability) (models : Models)
    (ap mn lg name : String) (hmn : mn ≠ name) :
    cachedId (transcribe cap models ap mn lg).1 name = cachedId models name ∧
    countLoadCalls name (transcribe cap models ap mn lg).2.1 = 0 ∧
    countLoadingLines name (transcribe cap models ap mn lg).2.1 = 0 := by
  rcases hlk : lookupModel models mn with _ | h
  · rcases hload : cap.load mn with e | h0
    · rw [transcribe_of_load_err cap models ap mn lg e models
        [Ev.out (.loading mn), Ev.loadCall mn]
        (load_model_miss_err cap models mn e hlk hload)]
      refine ⟨rfl, ?_, ?_⟩
      · simp [countLoadCalls, hmn]
      · simp [countLoadingLines, hmn]
    · have hl := load_model_miss_ok cap models mn h0 hlk hload
      obtain ⟨hst, hevs⟩ := transcribe_shape_ok cap models ap mn lg _ _ h0 hl
      rw [hst, hevs]
      refine ⟨?_, ?_, ?_⟩
      · by_cases hn : needsLang mn lg
        · rw [if_pos hn, cachedId_setModel_other _ _ _ _ hmn,
            cachedId_setModel_other _ _ _ _ hmn]
        · rw [if_neg hn, cachedId_setModel_other _ _ _ _ hmn]
      · simp [countLoadCalls, hmn]
      · simp [countLoadingLines, hmn]
  · have hl := load_model_hit cap models mn h hlk
    obtain ⟨hst, hevs⟩ := transcribe_shape_ok cap models ap mn lg models [] h hl
    rw [hst, hevs]
    refine ⟨?_, ?_, ?_⟩
    · by_cases hn : needsLang mn lg
      · rw [if_pos hn, cachedId_setModel_other _ _ _ _ hmn]
      · rw [if_neg hn]
    · simp [countLoadCalls]
    · simp [countLoadingLines]

lemma transcribe_cache_lemma (cap : Capability) (models : Models)
    (ap mn lg name : String) (hh : Handle)
    (hok : cap.load name = .ok hh) :
    (∀ i, cachedId models name = some i →
        cachedId (transcribe cap models ap mn lg).1 name = some i ∧
        countLoadCalls name (transcribe cap models ap mn lg).2.1 = 0 ∧
        countLoadingLines name (transcribe cap models ap mn lg).2.1 = 0) ∧
    (cachedId models name = none →
        (countLoadCalls name (transcribe cap models ap mn lg).2.1 = 0 ∧
         countLoadingLines name (transcribe cap models ap mn lg).2.1 = 0 ∧
         cachedId (transcribe cap models ap mn lg).1 name = none) ∨
        (countLoadCalls name (transcribe cap models ap mn lg).2.1 = 1 ∧
         countLoadingLines name (transcribe cap models ap mn lg).2.1 = 1 ∧
         (cachedId (transcribe cap models ap mn lg).1 name).isSome = true)) := by
  by_cases hmn : mn = name
  · subst hmn
    constructor
    · intro i hi
      have hi2 : (lookupModel models mn).map Handle.hid = some i := hi
      obtain ⟨h, hlk, hhid⟩ := Option.map_eq_some'.mp hi2
      have hl := load_model_hit cap models mn h hlk
      obtain ⟨hst, hevs⟩ := transcribe_shape_ok cap models ap mn lg models [] h hl
      rw [hst, hevs]
      refine ⟨?_, by simp [countLoadCalls], by simp [countLoadingLines]⟩
      by_cases hn : needsLang mn lg
      · rw [if_pos hn, cachedId_setModel_self, langAdjust_hid, hhid]
      · rw [if_neg hn]
        simp [cachedId, hlk, hhid]
    · intro hnone
      have hlk : lookupModel models mn = none := by
        simpa [cachedId] using hnone
      have hl := load_model_miss_ok cap models mn hh hlk hok
      obtain ⟨hst, hevs⟩ := transcribe_shape_ok cap models ap mn lg _ _ hh hl
      right
      rw [hst, hevs]
      refine ⟨by simp [countLoadCalls], by simp [countLoadingLines], ?_⟩
      by_cases hn : needsLang mn lg
      · rw [if_pos hn, cachedId_setModel_self]
        rfl
      · rw [if_neg hn, cachedId_setModel_self]
        rfl
  · obtain ⟨hpres, hc1, hc2⟩ := transcribe_other_name cap models ap mn lg name hmn
    constructor
    · intro i hi
      exact ⟨by rw [hpres, hi], hc1, hc2⟩
    · intro hnone
      left
      exact ⟨hc1, hc2, by rw [hpres, hnone]⟩

lemma step_cache_lemma (cap : Capability) (models : Models) (name : String)
    (hh : Handle) (hok : cap.load name = .ok hh) (l : InLine) :
    (∀ i, cachedId models name = some i →
        cachedId (step cap models l).1 name = some i ∧
        countLoadCalls name (step cap models l).2 = 0 ∧
        countLoadingLines name (step cap models l).2 = 0) ∧
    (cachedId models name = none →
        (countLoadCalls name (step cap models l).2 = 0 ∧
         countLoadingLines name (step cap models l).2 = 0 ∧
         cachedId (step cap models l).1 name = none) ∨
        (countLoadCalls name (step cap models l).2 = 1 ∧
         countLoadingLines name (step cap models l).2 = 1 ∧
         (cachedId (step cap models l).1 name).isSome = true)) := by
  cases l with
  | malformed m =>
      constructor
      · intro i hi
        exact ⟨hi, by simp [step, countLoadCalls], by simp [step, countLoadingLines]⟩
      · intro hnone
        left
        exact ⟨by simp [step, countLoadCalls], by simp [step, countLoadingLines], hnone⟩
  | parsed req =>
      cases hcond : (truthyField req.audio_path && truthyField req.model_name) with
      | false =>
          have hstep : step cap models (.parsed req)
              = (models, [.out (.error "Missing audio_path or model_name")]) := by
            simp [step, hcond]
          rw [hstep]
          constructor
          · intro i hi
            exact ⟨hi, by simp [countLoadCalls], by simp [countLoadingLines]⟩
          · intro hnone
            left
            exact ⟨by simp [countLoadCalls], by simp [countLoadingLines], hnone⟩
      | true =>
          rcases ht : transcribe cap models (reqPath req) (reqModel req) (reqLang req)
            with ⟨m2, evs, res⟩
          have h1 : (step cap models (.parsed req)).1 = m2 := by
            cases res <;> simp [step, hcond, ht]
          have h2 : countLoadCalls name (step cap models (.parsed req)).2
              = countLoadCalls name evs := by
            cases res <;> simp [step, hcond, ht, countLoadCalls]
          have h3 : countLoadingLines name (step cap models (.parsed req)).2
              = countLoadingLines name evs := by
            cases res <;> simp [step, hcond, ht, countLoadingLines]
          obtain ⟨tsome, tnone⟩ := transcribe_cache_lemma cap models (reqPath req)
            (reqModel req) (reqLang req) name hh hok
          rw [ht] at tsome tnone
          constructor
          · intro i hi
            obtain ⟨a, b, c⟩ := tsome i hi
            refine ⟨?_, ?_, ?_⟩
            · rw [h1]
              exact a
            · rw [h2]
              exact b
            · rw [h3]
              exact c
          · intro hnone
            rcases tnone hnone with ⟨a, b, c⟩ | ⟨a, b, c⟩
            · left
              refine ⟨?_, ?_, ?_⟩
              · rw [h2]
                exact a
              · rw [h3]
                exact b
              · rw [h1]
                exact c
            · right
              refine ⟨?_, ?_, ?_⟩
              · rw [h2]
                exact a
              · rw [h3]
                exact b
              · rw [h1]
                exact c

lemma runLoop_cache_lemma (cap : Capability) (name : String) (hh : Handle)
    (hok : cap.load name = .ok hh) :
    ∀ (input : List InLine) (models : Models),
    countLoadCalls name (runLoop cap models input)
        ≤ (if (cachedId models name).isSome then 0 else 1) ∧
    countLoadingLines name (runLoop cap models input)
        ≤ (if (cachedId models name).isSome then 0 else 1) ∧
    (∀ i, cachedId models name = some i →
        cachedId (runState cap models input) name = some i) := by
  intro input
  induction input with
  | nil =>
      intro models
      refine ⟨?_, ?_, ?_⟩
      · simp [runLoop, countLoadCalls]
      · simp [runLoop, countLoadingLines]
      · intro i hi
        simpa [runState] using hi
  | cons l rest ih =>
      intro models
      obtain ⟨hsome, hnone⟩ := step_cache_lemma cap models name hh hok l
      obtain ⟨ih1, ih2, ih3⟩ := ih (step cap models l).1
      have hdec1 : countLoadCalls name (runLoop cap models (l :: rest))
          = countLoadCalls name (step cap models l).2
            + countLoadCalls name (runLoop cap (step cap models l).1 rest) := by
        rw [runLoop, countLoadCalls_append]
      have hdec2 : countLoadingLines name (runLoop cap models (l :: rest))
          = countLoadingLines name (step cap models l).2
            + countLoadingLines name (runLoop cap (step cap models l).1 rest) := by
        rw [runLoop, countLoadingLines_append]
      have hdec3 : runState cap models (l :: rest)
          = runState cap (step cap models l).1 rest := rfl
      rcases hcache : cachedId models name with _ | i
      · rcases hnone hcache with ⟨c1, c2, hst⟩ | ⟨c1, c2, hst⟩
        · refine ⟨?_, ?_, ?_⟩
          · have hrest : countLoadCalls name (runLoop cap (step cap models l).1 rest) ≤ 1 := by
              rw [hst] at ih1
              simpa using ih1
            rw [hdec1, c1]
            simpa using hrest
          · have hrest : countLoadingLines name (runLoop cap (step cap models l).1 rest) ≤ 1 := by
              rw [hst] at ih2
              simpa using ih2
            rw [hdec2, c2]
            simpa using hrest
          · intro i hi
            simp at hi
        · refine ⟨?_, ?_, ?_⟩
          · have hrest : countLoadCalls name (runLoop cap (step cap models l).1 rest) ≤ 0 := by
              rw [hst] at ih1
              simpa using ih1
            rw [hdec1, c1]
            simp only [Option.isSome_none, Bool.false_eq_true, if_false]
            omega
          · have hrest : countLoadingLines name (runLoop cap (step cap models l).1 rest) ≤ 0 := by
              rw [hst] at ih2
              simpa using ih2
            rw [hdec2, c2]
            simp only [Option.isSome_none, Bool.false_eq_true, if_false]
            omega
          · intro i hi
            simp at hi
      · obtain ⟨a, b, c⟩ := hsome i hcache
        refine ⟨?_, ?_, ?_⟩
        · have hrest : countLoadCalls name (runLoop cap (step cap models l).1 rest) ≤ 0 := by
            rw [a] at ih1
            simpa using ih1
          rw [hdec1, b]
          simpa using hrest
        · have hrest : countLoadingLines name (runLoop cap (step cap models l).1 rest) ≤ 0 := by
            rw [a] at ih2
            simpa using ih2
          rw [hdec2, c]
          simpa using hrest
        · intro j hj
          injection hj with hij
          subst hij
          rw [hdec3]
          exact ih3 i a

/-- Claim C2 (amended): for any model name whose loads succeed, the load
primitive is invoked at most once across the whole request sequence (and
never, with no `loading` status line either, when the name is already
cached); a hit returns the cached handle with no events; a miss loads once,
stores the handle and returns it; and a cached instance is never evicted or
replaced — its identity survives the whole run.  (As literally stated the
claim fails when the load primitive itself fails: the cache is then not
populated and a retry invokes the load again, see the counterexample.) -/
theorem load_at_most_once_of_load_ok (cap : Capability) (models : Models)
    (input : List InLine) (name : String) (hh : Handle)
    (hok : cap.load name = .ok hh) :
    countLoadCalls name (runLoop cap models input)
        ≤ (if (lookupModel models name).isSome then 0 else 1) ∧
    countLoadingLines name (runLoop cap models input)
        ≤ (if (lookupModel models name).isSome then 0 else 1) ∧
    (∀ i, cachedId models name = some i →
        cachedId (runState cap models input) name = some i) ∧
    (∀ h, lookupModel models name = some h →
        load_model cap models name = (models, [], .ok h)) ∧
    (lookupModel models name = none →
        load_model cap models name
          = (setModel models name hh, [.out (.loading name), .loadCall name], .ok hh)) := by
  obtain ⟨b1, b2, b3⟩ := runLoop_cache_lemma cap name hh hok input models
  have hsame : (cachedId models name).isSome = (lookupModel models name).isSome := by
    simp [cachedId]
  rw [hsame] at b1 b2
  exact ⟨b1, b2, b3,
    fun h hl => load_model_hit cap models name h hl,
    fun hl => load_model_miss_ok cap models name hh hl hok⟩

/-- Witness for the amended C2: with an always-succeeding load, two requests
for `m1` from an empty cache give at most one load call. -/
theorem load_at_most_once_of_load_ok_witness :
    countLoadCalls "m1" (runLoop capDemo [] [mkReq "a.wav" "m1", mkReq "b.wav" "m1"])
        ≤ (if (lookupModel ([] : Models) "m1").isSome then 0 else 1) ∧
    countLoadingLines "m1" (runLoop capDemo [] [mkReq "a.wav" "m1", mkReq "b.wav" "m1"])
        ≤ (if (lookupModel ([] : Models) "m1").isSome then 0 else 1) ∧
    (∀ i, cachedId ([] : Models) "m1" = some i →
        cachedId (runState capDemo [] [mkReq "a.wav" "m1", mkReq "b.wav" "m1"]) "m1"
          = some i) ∧
    (∀ h, lookupModel ([] : Models) "m1" = some h →
        load_model capDemo [] "m1" = ([], [], .ok h)) ∧
    (lookupModel ([] : Models) "m1" = none →
        load_model capDemo [] "m1"
          = (setModel [] "m1" { hid := 0, decoding := some "default" },
             [.out (.loading "m1"), .loadCall "m1"],
             .ok { hid := 0, decoding := some "default" })) :=
  load_at_most_once_of_load_ok capDemo [] [mkReq "a.wav" "m1", mkReq "b.wav" "m1"]
    "m1" { hid := 0, decoding := some "default" } rfl

/-- Counterexample to C2 as literally stated: when the load primitive fails,
two requests for the same (absent) name invoke it twice — the failed load
does not populate the cache, so the second request loads again. -/
theorem load_primitive_invoked_twice_after_failure :
    countLoadCalls "m1"
      (runLoop capFail [] [mkReq "a.wav" "m1", mkReq "a.wav" "m1"]) = 2 := by
  rfl
